import Mathlib

/-!
Shallow embedding of the seahorse flag model (`src/flag.rs`) and action
wrapper (`src/action.rs`), together with theorems checking the claims of the
specification against these definitions.

Modelling conventions:
* Rust `panic!` is modelled as `Except.error`; the two panic shapes of
  `Flag::value` (slice indexing out of bounds, value coercion) are the two
  constructors of `Panic`.
* Rust `isize` is modelled as an unbounded `Int`, with the 64-bit range check
  performed by the parse function; `f64` is modelled as Lean `Float`.
* `Iterator::position` is `List.findIdx?`; `format!("--{}", name)` is string
  append; `str::contains(char)` is membership in the character list.
-/

namespace Seahorse

/-- FlagType enum from `src/flag.rs`. -/
inductive FlagType where
  | Bool
  | String
  | Int
  | Float
deriving DecidableEq

/-- FlagValue enum from `src/flag.rs`. -/
inductive FlagValue where
  | Bool (b : Bool)
  | String (s : String)
  | Int (n : Int)
  | Float (x : Float)

/-- Fatal failures of `Flag::value`: the slice-indexing panic `v[index + 1]`
(with the slice length and the offending index) and the `unwrap_or_else`
coercion panics (with their formatted message). -/
inductive Panic where
  | indexOutOfBounds (len index : Nat)
  | coercion (msg : String)
deriving DecidableEq

/-- Flag struct from `src/flag.rs`. -/
structure Flag where
  name : String
  usage : String
  flag_type : FlagType
  alias' : Option (List String)
deriving DecidableEq

/-- Translation of `Flag::new` (src/flag.rs).  The three validation `panic!`
calls become `Except.error` carrying the formatted panic message.
`name.starts_with('-')` is the test on the first character, and
`name.contains(c)` for a `char` pattern is membership in the character
list. -/
def Flag.new (name usage : String) (flag_type : FlagType) : Except String Flag :=
  if name.data.head? = some '-' then
    Except.error ("\"" ++ name ++ "\" is invalid flag name. Flag name cannnot start with \"-\".")
  else if name.data.contains '=' then
    Except.error ("\"" ++ name ++ "\" is invalid flag name. Flag name cannnot contain \"=\".")
  else if name.data.contains ' ' then
    Except.error ("\"" ++ name ++ "\" is invalid flag name. Flag name cannnot contain whitespaces.")
  else
    Except.ok { name := name, usage := usage, flag_type := flag_type, alias' := none }

/-- Translation of `Flag::alias` (src/flag.rs), called `addAlias` here because
the field already occupies the name `Flag.alias`: pushes the new alias onto
the vector, creating the vector on first use. -/
def Flag.addAlias (f : Flag) (name : String) : Flag :=
  match f.alias' with
  | some as => { f with alias' := some (as ++ [name]) }
  | none => { f with alias' := some [name] }

/-- Translation of `Flag::option_index` (src/flag.rs). -/
def Flag.option_index (f : Flag) (v : List String) : Option Nat :=
  match f.alias' with
  | some as =>
      v.findIdx? (fun r => r == "--" ++ f.name || as.any (fun a => r == "-" ++ a))
  | none =>
      v.findIdx? (fun r => r == "--" ++ f.name)

/-- Value of a digit string in base 10. -/
def natOfDigits (ds : List Char) : Nat :=
  ds.foldl (fun acc c => acc * 10 + (c.toNat - 48)) 0

/-- Base-10 parse of a Rust `isize` (`str::parse::<isize>`): an optional sign
followed by at least one ASCII digit, rejected when the value overflows the
64-bit signed range. -/
def parseIsize (s : String) : Option Int :=
  let (neg, digits) :=
    match s.data with
    | '-' :: rest => (true, rest)
    | '+' :: rest => (false, rest)
    | cs => (false, cs)
  if digits ≠ [] ∧ digits.all Char.isDigit then
    let val : Int := if neg then -(natOfDigits digits : Int) else (natOfDigits digits : Int)
    if -(2 ^ 63) ≤ val ∧ val < 2 ^ 63 then some val else none
  else
    none

/-- Float built from a decimal mantissa, a base-10 exponent and an optional
leading minus sign. -/
def floatOfParts (neg : Bool) (m : Nat) (e : Int) : Float :=
  let x := if e < 0 then Float.ofScientific m true e.natAbs else Float.ofScientific m false e.toNat
  if neg then -x else x

/-- Exponent suffix of a float literal: either nothing, or `e`/`E` followed by
an optional sign and at least one digit. -/
def parseExpPart : List Char → Option Int
  | [] => some 0
  | c :: rest =>
      if c = 'e' ∨ c = 'E' then
        let (esign, ds) :=
          match rest with
          | '-' :: r => (true, r)
          | '+' :: r => (false, r)
          | r => (false, r)
        if ds ≠ [] ∧ ds.all Char.isDigit then
          some (if esign then -(natOfDigits ds : Int) else (natOfDigits ds : Int))
        else none
      else none

/-- Parse of a Rust `f64` (`str::parse::<f64>`): an optional sign, then `inf`,
`infinity` or `nan` (case-insensitive), or a decimal number with an optional
fractional part and exponent. -/
def parseF64 (s : String) : Option Float :=
  let (neg, body) :=
    match s.data with
    | '-' :: rest => (true, rest)
    | '+' :: rest => (false, rest)
    | cs => (false, cs)
  let lower := body.map Char.toLower
  if lower = "inf".data ∨ lower = "infinity".data then
    some (if neg then -((1.0 : Float) / 0.0) else (1.0 : Float) / 0.0)
  else if lower = "nan".data then
    some ((0.0 : Float) / 0.0)
  else
    let (ip, rest1) := body.span Char.isDigit
    match rest1 with
    | '.' :: rest2 =>
        let (fp, rest3) := rest2.span Char.isDigit
        if ip = [] ∧ fp = [] then none
        else
          match parseExpPart rest3 with
          | some e => some (floatOfParts neg (natOfDigits (ip ++ fp)) (e - fp.length))
          | none => none
    | _ =>
        if ip = [] then none
        else
          match parseExpPart rest1 with
          | some e => some (floatOfParts neg (natOfDigits ip) e)
          | none => none

/-- Translation of `Flag::value` (src/flag.rs).  The slice indexing
`v[index + 1]` is modelled by `v[index + 1]?`, turning the out-of-bounds panic
into `Panic.indexOutOfBounds`; the coercion failures become `Panic.coercion`
with the formatted panic message. -/
def Flag.value (f : Flag) (v : List String) : Except Panic (Option FlagValue) :=
  match f.flag_type with
  | FlagType.Bool =>
      match f.alias' with
      | some as =>
          Except.ok (some (FlagValue.Bool
            (v.contains ("--" ++ f.name) || as.any (fun a => v.contains ("-" ++ a)))))
      | none =>
          Except.ok (some (FlagValue.Bool (v.contains ("--" ++ f.name))))
  | FlagType.String =>
      match f.option_index v with
      | some index =>
          match v[index + 1]? with
          | some t => Except.ok (some (FlagValue.String t))
          | none => Except.error (Panic.indexOutOfBounds v.length (index + 1))
      | none => Except.ok none
  | FlagType.Int =>
      match f.option_index v with
      | some index =>
          match v[index + 1]? with
          | some t =>
              match parseIsize t with
              | some n => Except.ok (some (FlagValue.Int n))
              | none =>
                  Except.error (Panic.coercion
                    ("The value of `" ++ f.name ++ "` flag should be int."))
          | none => Except.error (Panic.indexOutOfBounds v.length (index + 1))
      | none => Except.ok none
  | FlagType.Float =>
      match f.option_index v with
      | some index =>
          match v[index + 1]? with
          | some t =>
              match parseF64 t with
              | some x => Except.ok (some (FlagValue.Float x))
              | none =>
                  Except.error (Panic.coercion
                    ("The value of `" ++ f.name ++ "` flag should be float."))
          | none => Except.error (Panic.indexOutOfBounds v.length (index + 1))
      | none => Except.ok none

/-- Action wrapper from `src/action.rs`.  The `Context` type lives in
`src/context.rs`, outside the sources in scope; modelled from the spec as an
opaque type parameter `C` ("a reference to an execution context"), with the
callable's observable behavior recorded as a value of an arbitrary result
type `O` (the Rust callable returns `()` and performs effects; a pure
embedding records the behavior as the function's result).  The shared handle
`Arc<dyn Fn(&Context)>` is the wrapped function itself. -/
structure Action (C O : Type) where
  inner : C → O

/-- Translation of `Action::run` (src/action.rs): applies the wrapped callable
to the context. -/
def Action.run {C O : Type} (a : Action C O) (context : C) : O :=
  a.inner context

/-- Translation of `impl<F> From<F> for Action` (src/action.rs): wraps the
callable behind the handle. -/
def Action.ofFn {C O : Type} (f : C → O) : Action C O :=
  { inner := f }

/-- Aliases registered on a flag: the contents of the alias collection, empty
when the collection was never created. -/
def Flag.registeredAliases (f : Flag) : List String :=
  f.alias'.getD []

/-- Specification-side matching predicate: a token matches the flag when it
equals the long form `--name` as a whole string, or equals `-a` for a
registered alias `a`. -/
def Flag.isMatch (f : Flag) (t : String) : Prop :=
  t = "--" ++ f.name ∨ ∃ a ∈ f.registeredAliases, t = "-" ++ a

instance (f : Flag) (t : String) : Decidable (f.isMatch t) := by
  unfold Flag.isMatch
  infer_instance

/-- Pointwise-equal predicates give equal results under `List.findIdx?`, for
any start index. -/
theorem findIdx?_ext {α : Type} {p q : α → Bool} (h : ∀ a, p a = q a) :
    ∀ (l : List α) (i : Nat), l.findIdx? p i = l.findIdx? q i
  | [], _ => rfl
  | x :: xs, i => by
      simp only [List.findIdx?_cons, h x, findIdx?_ext h xs (i + 1)]

/-- Both branches of `option_index` scan for exactly the tokens satisfying
`isMatch`. -/
theorem option_index_eq_findIdx? (f : Flag) (v : List String) :
    f.option_index v = v.findIdx? (fun t => decide (f.isMatch t)) := by
  unfold Flag.option_index
  cases h : f.alias' with
  | none =>
      refine findIdx?_ext (fun t => ?_) v 0
      rw [Bool.eq_iff_iff]
      simp [Flag.isMatch, Flag.registeredAliases, h]
  | some as =>
      refine findIdx?_ext (fun t => ?_) v 0
      rw [Bool.eq_iff_iff]
      simp [Flag.isMatch, Flag.registeredAliases, h]

/-- Characterization of the `none` result of `option_index`: no token
matches. -/
theorem option_index_eq_none_iff (f : Flag) (v : List String) :
    f.option_index v = none ↔ ∀ t ∈ v, ¬ f.isMatch t := by
  rw [option_index_eq_findIdx?, List.findIdx?_eq_none_iff]
  simp

/-- Characterization of the `some` result of `option_index`: the token at the
returned position matches and no earlier token does. -/
theorem option_index_eq_some_iff (f : Flag) (v : List String) (i : Nat) :
    f.option_index v = some i ↔
      (∃ t, v[i]? = some t ∧ f.isMatch t) ∧
        ∀ j, j < i → ∀ u, v[j]? = some u → ¬ f.isMatch u := by
  rw [option_index_eq_findIdx?, List.findIdx?_eq_some_iff_getElem]
  constructor
  · rintro ⟨hlen, hp, hmin⟩
    refine ⟨⟨v[i], List.getElem?_eq_getElem hlen, by simpa using hp⟩, ?_⟩
    intro j hji u hu
    have hjlen : j < v.length := Nat.lt_trans hji hlen
    rw [List.getElem?_eq_getElem hjlen] at hu
    cases hu
    simpa using hmin j hji
  · rintro ⟨⟨t, ht, hmt⟩, hmin⟩
    obtain ⟨hlen, hti⟩ := List.getElem?_eq_some_iff.mp ht
    refine ⟨hlen, by rw [hti]; simpa using hmt, ?_⟩
    intro j hji
    have hjlen : j < v.length := Nat.lt_trans hji hlen
    simpa using hmin j hji v[j] (List.getElem?_eq_getElem hjlen)

/-- A position returned by `option_index` is in bounds. -/
theorem option_index_lt_length (f : Flag) (v : List String) (i : Nat)
    (h : f.option_index v = some i) : i < v.length := by
  obtain ⟨⟨t, ht, -⟩, -⟩ := (option_index_eq_some_iff f v i).mp h
  exact (List.getElem?_eq_some_iff.mp ht).1

/-- The Bool branch of `value` computes the presence test of `isMatch`. -/
theorem value_bool_eq_decide (f : Flag) (v : List String)
    (h : f.flag_type = FlagType.Bool) :
    f.value v = Except.ok (some (FlagValue.Bool (decide (∃ t ∈ v, f.isMatch t)))) := by
  obtain ⟨n, u, ft, al⟩ := f
  simp only at h
  subst h
  cases al with
  | none =>
      simp only [Flag.value]
      congr 3
      rw [Bool.eq_iff_iff]
      simp only [List.contains, List.elem_eq_mem, decide_eq_true_eq, Flag.isMatch,
        Flag.registeredAliases]
      constructor
      · intro hm
        exact ⟨"--" ++ n, hm, Or.inl rfl⟩
      · rintro ⟨t, htv, rfl | ⟨a, ha, rfl⟩⟩
        · exact htv
        · simp at ha
  | some as =>
      simp only [Flag.value]
      congr 3
      rw [Bool.eq_iff_iff]
      simp only [Bool.or_eq_true, List.any_eq_true, List.contains, List.elem_eq_mem,
        decide_eq_true_eq, Flag.isMatch, Flag.registeredAliases, Option.getD_some]
      constructor
      · rintro (hm | ⟨a, ha, hin⟩)
        · exact ⟨"--" ++ n, hm, Or.inl rfl⟩
        · exact ⟨"-" ++ a, hin, Or.inr ⟨a, ha, rfl⟩⟩
      · rintro ⟨t, htv, rfl | ⟨a, ha, rfl⟩⟩
        · exact Or.inl htv
        · exact Or.inr ⟨a, ha, htv⟩

/-- Sample token list used by the repository's own tests. -/
def exTokens : List String := ["cli", "command", "args", "--string", "test"]

/-- Sample String flag named `string`. -/
def stringFlag : Flag :=
  { name := "string", usage := "", flag_type := FlagType.String, alias' := none }

/-- Sample Int flag named `int`. -/
def intFlag : Flag :=
  { name := "int", usage := "", flag_type := FlagType.Int, alias' := none }

/-- Sample token list for the Int flag. -/
def exIntTokens : List String := ["cli", "command", "args", "--int", "100"]

/-- Sample Bool flag named `bool`. -/
def boolFlag : Flag :=
  { name := "bool", usage := "", flag_type := FlagType.Bool, alias' := none }

/-- Sample token list for the Bool flag. -/
def exBoolTokens : List String := ["cli", "command", "args", "--bool"]

/-- Sample String flag with a one-letter name, for the trailing-flag panic. -/
def shortFlag : Flag :=
  { name := "s", usage := "", flag_type := FlagType.String, alias' := none }

/-- C1: `option_index` returns the index of the first token equal to the long
form `--name` or, when aliases are registered, to `-a` for a registered alias
`a`; ties among candidate tokens go to the earliest position in the token
list, and it returns `none` when no token matches either form. -/
theorem option_index_first_match (f : Flag) (v : List String) :
    (∀ i : Nat, f.option_index v = some i ↔
      (∃ t, v[i]? = some t ∧ f.isMatch t) ∧
        ∀ j, j < i → ∀ u, v[j]? = some u → ¬ f.isMatch u) ∧
    (f.option_index v = none ↔ ∀ t ∈ v, ¬ f.isMatch t) :=
  ⟨fun i => option_index_eq_some_iff f v i, option_index_eq_none_iff f v⟩

/-- C2: for a Bool flag, `value` always returns a value, never `none`: the
value is `Bool true` exactly when the long form or a registered alias short
form appears anywhere in the token list, and `Bool false` otherwise. -/
theorem value_bool_presence (f : Flag) (v : List String)
    (h : f.flag_type = FlagType.Bool) :
    ∃ b : Bool, f.value v = Except.ok (some (FlagValue.Bool b)) ∧
      (b = true ↔ ∃ t ∈ v, f.isMatch t) :=
  ⟨decide (∃ t ∈ v, f.isMatch t), value_bool_eq_decide f v h, by simp⟩

/-- C2 witness: the Bool flag `bool` against `["cli", "command", "args",
"--bool"]`. -/
theorem value_bool_presence_witness :
    ∃ b : Bool, boolFlag.value exBoolTokens = Except.ok (some (FlagValue.Bool b)) ∧
      (b = true ↔ ∃ t ∈ exBoolTokens, boolFlag.isMatch t) :=
  value_bool_presence boolFlag exBoolTokens rfl

/-- C3: for a String flag, `value` returns `none` when `option_index` finds no
match, and when `option_index` returns a position followed by a further token
it returns that following token verbatim as the string value. -/
theorem value_string_spec (f : Flag) (v : List String)
    (h : f.flag_type = FlagType.String) :
    (f.option_index v = none → f.value v = Except.ok none) ∧
    ∀ i t, f.option_index v = some i → v[i + 1]? = some t →
      f.value v = Except.ok (some (FlagValue.String t)) := by
  obtain ⟨n, u, ft, al⟩ := f
  simp only at h
  subst h
  constructor
  · intro hnone
    simp [Flag.value, hnone]
  · intro i t hidx hget
    simp [Flag.value, hidx, hget]

/-- C3 witness: the String flag `string` against `["cli", "command", "args",
"--string", "test"]` yields the string `test`. -/
theorem value_string_spec_witness :
    stringFlag.value exTokens = Except.ok (some (FlagValue.String "test")) :=
  (value_string_spec stringFlag exTokens rfl).2 3 "test" (by decide) (by decide)

/-- For the three positional types, the result of `value` in each shape of the
lookup: the indexing panic when no token follows the match, never an indexing
panic when one does, and `none` when nothing matches. -/
theorem value_positional_cases (f : Flag) (v : List String)
    (h : f.flag_type = FlagType.String ∨ f.flag_type = FlagType.Int ∨
      f.flag_type = FlagType.Float) :
    (∀ i, f.option_index v = some i → v[i + 1]? = none →
        f.value v = Except.error (Panic.indexOutOfBounds v.length (i + 1))) ∧
    (∀ i t, f.option_index v = some i → v[i + 1]? = some t →
        ∀ n k, f.value v ≠ Except.error (Panic.indexOutOfBounds n k)) ∧
    (f.option_index v = none → f.value v = Except.ok none) := by
  obtain ⟨nm, u, ft, al⟩ := f
  rcases h with h | h | h <;> simp only at h <;> subst h
  · refine ⟨?_, ?_, ?_⟩
    · intro i hoi hv
      simp [Flag.value, hoi, hv]
    · intro i t hoi hv n k
      simp [Flag.value, hoi, hv]
    · intro hoi
      simp [Flag.value, hoi]
  · refine ⟨?_, ?_, ?_⟩
    · intro i hoi hv
      simp [Flag.value, hoi, hv]
    · intro i t hoi hv n k
      cases hp : parseIsize t <;> simp [Flag.value, hoi, hv, hp]
    · intro hoi
      simp [Flag.value, hoi]
  · refine ⟨?_, ?_, ?_⟩
    · intro i hoi hv
      simp [Flag.value, hoi, hv]
    · intro i t hoi hv n k
      cases hp : parseF64 t <;> simp [Flag.value, hoi, hv, hp]
    · intro hoi
      simp [Flag.value, hoi]

/-- C4: for a String, Int or Float flag, `value` fails with the indexing panic
exactly when `option_index` matches the last token of the list; whenever the
matched position is followed by at least one token, the indexing branch is in
bounds and no indexing panic occurs. -/
theorem value_index_panic_iff (f : Flag) (v : List String)
    (h : f.flag_type = FlagType.String ∨ f.flag_type = FlagType.Int ∨
      f.flag_type = FlagType.Float) :
    ((∃ n k, f.value v = Except.error (Panic.indexOutOfBounds n k)) ↔
      ∃ i, f.option_index v = some i ∧ i + 1 = v.length) ∧
    ∀ i, f.option_index v = some i → i + 1 < v.length →
      ∀ n k, f.value v ≠ Except.error (Panic.indexOutOfBounds n k) := by
  obtain ⟨hpanic, hok, hnone⟩ := value_positional_cases f v h
  constructor
  · constructor
    · rintro ⟨n, k, herr⟩
      cases hoi : f.option_index v with
      | none => rw [hnone hoi] at herr; cases herr
      | some i =>
          refine ⟨i, rfl, ?_⟩
          cases hv : v[i + 1]? with
          | some t => exact absurd herr (hok i t hoi hv n k)
          | none =>
              have h1 : v.length ≤ i + 1 := List.getElem?_eq_none_iff.mp hv
              have h2 : i < v.length := option_index_lt_length f v i hoi
              omega
    · rintro ⟨i, hoi, hlen⟩
      have hv : v[i + 1]? = none := List.getElem?_eq_none (by omega)
      exact ⟨v.length, i + 1, hpanic i hoi hv⟩
  · intro i hoi hlt n k
    exact hok i _ hoi (List.getElem?_eq_getElem hlt) n k

/-- C4 witness: the String flag `s` matched at the last token of `["--s"]`
panics with the indexing error. -/
theorem value_index_panic_iff_witness :
    ∃ n k, shortFlag.value ["--s"] = Except.error (Panic.indexOutOfBounds n k) :=
  (value_index_panic_iff shortFlag ["--s"] (Or.inl rfl)).1.mpr ⟨0, by decide, rfl⟩

/-- C5: for an Int flag, `value` returns `none` when nothing matches, and at a
matched position followed by a token it returns the parsed base-10 signed
integer, or fails with the descriptive coercion panic when the token is not a
valid integer. -/
theorem value_int_spec (f : Flag) (v : List String)
    (h : f.flag_type = FlagType.Int) :
    (f.option_index v = none → f.value v = Except.ok none) ∧
    ∀ i t, f.option_index v = some i → v[i + 1]? = some t →
      (∀ n : Int, parseIsize t = some n →
        f.value v = Except.ok (some (FlagValue.Int n))) ∧
      (parseIsize t = none →
        f.value v = Except.error (Panic.coercion
          ("The value of `" ++ f.name ++ "` flag should be int."))) := by
  obtain ⟨nm, u, ft, al⟩ := f
  simp only at h
  subst h
  refine ⟨fun hnone => by simp [Flag.value, hnone], ?_⟩
  intro i t hidx hget
  constructor
  · intro n hp
    simp [Flag.value, hidx, hget, hp]
  · intro hp
    simp [Flag.value, hidx, hget, hp]

/-- C5 witness: the Int flag `int` against `["cli", "command", "args",
"--int", "100"]` yields the integer 100. -/
theorem value_int_spec_witness :
    parseIsize "100" = some 100 ∧
      intFlag.value exIntTokens = Except.ok (some (FlagValue.Int 100)) :=
  ⟨by decide,
    ((value_int_spec intFlag exIntTokens rfl).2 3 "100" (by decide)
      (by decide)).1 100 (by decide)⟩

/-- C6 counterexample: the name `a\tb` contains a whitespace character (the
tab), yet `Flag::new` accepts it — the code rejects only the space character,
not every whitespace character. -/
theorem flag_new_tab_accepted :
    (∃ c ∈ "a\tb".data, c.isWhitespace = true) ∧
      Flag.new "a\tb" "" FlagType.Bool =
        Except.ok (Flag.mk "a\tb" "" FlagType.Bool none) :=
  ⟨⟨'\t', by decide, by decide⟩, rfl⟩

/-- C6 (amended): construction fails with a validation error exactly for names
that start with `-`, contain `=`, or contain the space character; names free
of those three construct successfully with the fields stored unchanged. -/
theorem flag_new_validation (name usage : String) (t : FlagType) :
    ((name.data.head? = some '-' ∨ '=' ∈ name.data ∨ ' ' ∈ name.data) →
        ∃ msg, Flag.new name usage t = Except.error msg) ∧
    (¬ (name.data.head? = some '-' ∨ '=' ∈ name.data ∨ ' ' ∈ name.data) →
        Flag.new name usage t =
          Except.ok (Flag.mk name usage t none)) := by
  constructor
  · intro hbad
    unfold Flag.new
    split_ifs with h1 h2 h3
    · exact ⟨_, rfl⟩
    · exact ⟨_, rfl⟩
    · exact ⟨_, rfl⟩
    · exfalso
      rcases hbad with hb | hb | hb
      · exact h1 hb
      · exact h2 (by simpa [List.contains] using hb)
      · exact h3 (by simpa [List.contains] using hb)
  · intro hgood
    unfold Flag.new
    split_ifs with h1 h2 h3
    · exact absurd (Or.inl h1) hgood
    · exact absurd (Or.inr (Or.inl (by simpa [List.contains] using h2))) hgood
    · exact absurd (Or.inr (Or.inr (by simpa [List.contains] using h3))) hgood
    · rfl

/-- C7 counterexample: `Flag::new` accepts the empty string as a name and
returns a flag whose name is empty — no non-emptiness check exists. -/
theorem flag_new_empty_name_accepted :
    Flag.new "" "usage" FlagType.Bool =
      Except.ok (Flag.mk "" "usage" FlagType.Bool none) :=
  rfl

/-- C7 (amended): `Flag::new` enforces no non-emptiness of the name:
construction with the empty string as name succeeds, storing the empty name
and the other fields unchanged. -/
theorem flag_new_no_nonempty_check (usage : String) (t : FlagType) :
    Flag.new "" usage t =
      Except.ok { name := "", usage := usage, flag_type := t, alias' := none } :=
  rfl

/-- C8: `alias` appends the new alias at the end of the alias collection,
creating a one-element collection when there was none (and never checking
uniqueness, so duplicates are kept), while name, usage and flag type are
unchanged. -/
theorem addAlias_appends (f : Flag) (a : String) :
    (f.addAlias a).alias' = some (f.registeredAliases ++ [a]) ∧
    (f.addAlias a).name = f.name ∧
    (f.addAlias a).usage = f.usage ∧
    (f.addAlias a).flag_type = f.flag_type := by
  cases h : f.alias' <;>
    simp [Flag.addAlias, Flag.registeredAliases, h]

/-- C9: running an action built from a callable invokes exactly that callable
on exactly the given context, without interception or transformation. -/
theorem action_ofFn_run {C O : Type} (f : C → O) (c : C) :
    (Action.ofFn f).run c = f c :=
  rfl

/-- C10: matching is exact whole-token equality: a matched position always
holds a token equal, as a whole string, to `--name` or to `-a` for a
registered alias `a`; the Bool presence test returns true only when such an
exactly-equal token is present; and when every token differs from `--name`
and from every `-a` — as tokens of the shape `--name=value` or other mere
extensions of the forms do — `option_index` returns `none` and the Bool value
is false, so attached `=`-style values are never recognized. -/
theorem exact_token_match_only (f : Flag) (v : List String) :
    (∀ i, f.option_index v = some i →
        ∃ t, v[i]? = some t ∧
          (t = "--" ++ f.name ∨ ∃ a ∈ f.registeredAliases, t = "-" ++ a)) ∧
    (f.flag_type = FlagType.Bool →
      f.value v = Except.ok (some (FlagValue.Bool true)) →
        ∃ t ∈ v, t = "--" ++ f.name ∨ ∃ a ∈ f.registeredAliases, t = "-" ++ a) ∧
    ((∀ t ∈ v, t ≠ "--" ++ f.name ∧ ∀ a ∈ f.registeredAliases, t ≠ "-" ++ a) →
        f.option_index v = none ∧
          (f.flag_type = FlagType.Bool →
            f.value v = Except.ok (some (FlagValue.Bool false)))) := by
  refine ⟨?_, ?_, ?_⟩
  · intro i hoi
    obtain ⟨⟨t, ht, hm⟩, -⟩ := (option_index_eq_some_iff f v i).mp hoi
    simp only [Flag.isMatch] at hm
    exact ⟨t, ht, hm⟩
  · intro hb hval
    rw [value_bool_eq_decide f v hb] at hval
    simp only [Except.ok.injEq, Option.some.injEq, FlagValue.Bool.injEq,
      decide_eq_true_eq, Flag.isMatch] at hval
    exact hval
  · intro hnm
    have hno : ∀ t ∈ v, ¬ f.isMatch t := by
      intro t htv hm
      simp only [Flag.isMatch] at hm
      rcases hm with hm | ⟨a, ha, hm⟩
      · exact (hnm t htv).1 hm
      · exact (hnm t htv).2 a ha hm
    refine ⟨(option_index_eq_none_iff f v).mpr hno, fun hb => ?_⟩
    rw [value_bool_eq_decide f v hb]
    have hd : decide (∃ t ∈ v, f.isMatch t) = false := by
      simp only [decide_eq_false_iff_not]
      rintro ⟨t, htv, hm⟩
      exact hno t htv hm
    rw [hd]

end Seahorse
